import Mathlib

/-!
Verification of `mbeumo_spelling_bot.py`.

Shallow embedding of the bot's core logic:
* the misspelling matcher `find_misspelling` (regular expressions of the shape
  `\bword\b` compiled with `re.IGNORECASE` are modelled by direct whole-word
  matching over `List Char`, with `\w` restricted to ASCII letters, digits and
  underscore, and case folding by `Char.toLower`);
* the stats dictionary operations (load, save, and the correction-recording
  update in `main`), with JSON values modelled by an inductive `JVal` and the
  persisted file by an explicit `FileCond`; a raised-and-caught exception is
  modelled by the corresponding error constructor.
-/

namespace MbeumoBot

/-- Characters matched by Python's regex `\w`, restricted to ASCII:
letters, digits and underscore. -/
def isWordChar (c : Char) : Bool := c.isAlphanum || c == '_'

/-- Case folding used by `re.IGNORECASE` (ASCII). -/
def lc (c : Char) : Char := c.toLower

/-- Position `i` is past the end of `text` or holds a non-word character.
Used for the `\b` boundaries around an all-word-character pattern. -/
def nonWordAt (text : List Char) (i : Nat) : Bool :=
  match text.drop i with
  | [] => true
  | c :: _ => !isWordChar c

/-- The pattern `\bword\b` (with `re.IGNORECASE`) matches `text` at
position `i`: the slice of length `word.length` starting at `i` equals
`word` up to case, and both ends sit on a word boundary. -/
def wholeWordAt (word text : List Char) (i : Nat) : Bool :=
  (((text.drop i).take word.length).map lc == word.map lc)
  && (i == 0 || nonWordAt text (i - 1))
  && nonWordAt text (i + word.length)

/-- Index of the leftmost whole-word match of `word` in `text`
(the start position `re.search` finds). -/
def searchIdx (word text : List Char) : Option Nat :=
  (List.range (text.length + 1)).find? (fun i => wholeWordAt word text i)

/-- Model of `re.search(rf"\b{word}\b", text, re.I)` returning `m.group(0)`:
the matched slice of the input, original casing preserved. -/
def find_word (word text : List Char) : Option (List Char) :=
  (searchIdx word text).map (fun i => (text.drop i).take word.length)

/-- Whether `\bword\b` matches somewhere in `text`, case-insensitively. -/
def containsWord (word text : List Char) : Bool := (searchIdx word text).isSome

/-- The words of `MISSPELLINGS_RAW`: each source entry is the pattern
`\bw\b` compiled with `re.I`, represented here by `w` itself. -/
def MISSPELLINGS : List (List Char) :=
  ["mbuemo".data, "mbeuemo".data, "mbeuomo".data, "mbeuono".data,
   "mbeoumo".data, "mboomo".data, "mbeemo".data, "mbeuno".data,
   "meubomo".data, "mboma".data, "mbumeo".data, "mbewmoe".data]

/-- `CORRECT_NAME = "Mbeumo"` from the source. -/
def CORRECT_NAME : String := "Mbeumo"

/-- Core of `find_misspelling` over character lists: if the correct name
occurs as a whole word (any case), no match; otherwise the first pattern in
`MISSPELLINGS` order whose search succeeds yields its matched slice. -/
def findMisspellingL (text : List Char) : Option (List Char) :=
  if containsWord CORRECT_NAME.data text then none
  else MISSPELLINGS.findSome? (fun w => find_word w text)

/-- `find_misspelling(text)` from the source, on `String`. -/
def find_misspelling (text : String) : Option String :=
  (findMisspellingL text.data).map String.mk

/-! ## Stats: JSON-level model of the persisted file (`load_stats` / `save_stats`) -/

/-- A JSON value, the result of a successful `json.load`. -/
inductive JVal where
  | jnull : JVal
  | jbool : Bool → JVal
  | jnum : Int → JVal
  | jstr : String → JVal
  | jarr : List JVal → JVal
  | jobj : List (String × JVal) → JVal

/-- Lookup in a JSON object's field list (Python dicts have unique keys;
lookup returns the first binding). -/
def jLookup : List (String × JVal) → String → Option JVal
  | [], _ => none
  | (k, v) :: rest, key => if k = key then some v else jLookup rest key

/-- Python `dict.setdefault(k, v)`: leave the dict alone when `k` is
present, otherwise insert `(k, v)` at the end (insertion order). -/
def jSetdefault (fields : List (String × JVal)) (k : String) (v : JVal) :
    List (String × JVal) :=
  match jLookup fields k with
  | some _ => fields
  | none => fields ++ [(k, v)]

/-- The fresh default stats dict built by `load_stats`, with `now` standing
for `datetime.now(timezone.utc).isoformat()`. -/
def freshStats (now : String) : List (String × JVal) :=
  [("start_time", JVal.jstr now), ("total_corrections", JVal.jnum 0),
   ("misspellings", JVal.jobj [])]

/-- State of the backing file `STATS_PATH` as `load_stats` encounters it. -/
inductive FileCond where
  | absent : FileCond
  | readError : FileCond
  | parseError : FileCond
  | parsed : JVal → FileCond

/-- `load_stats()` from the source. Absent file, failing open/read, failing
`json.load`, and `json.load` yielding a non-dict (whose `setdefault` raises,
caught by the bare `except`) all fall through to the fresh defaults; a parsed
dict gets the three keys `setdefault`-ed in source order. The function is
total: no condition makes it raise. -/
def load_stats (now : String) : FileCond → List (String × JVal)
  | FileCond.parsed (JVal.jobj fields) =>
      jSetdefault
        (jSetdefault
          (jSetdefault fields "start_time" (JVal.jstr now))
          "total_corrections" (JVal.jnum 0))
        "misspellings" (JVal.jobj [])
  | _ => freshStats now

/-- Outcome of `save_stats`: either the file now holds the serialized dict,
or the failure was printed and swallowed. -/
inductive SaveResult where
  | saved : FileCond → SaveResult
  | loggedFailure : String → SaveResult

/-- `save_stats(stats)` from the source. The write attempt is passed in as
an `Except` (any exception raised by `open`/`json.dump` is its `error`
case); the bare `except Exception` prints and returns normally, so the
function is total and never re-raises. On success the file holds exactly
the serialized dict. -/
def save_stats (stats : List (String × JVal)) : Except String Unit → SaveResult
  | Except.ok _ => SaveResult.saved (FileCond.parsed (JVal.jobj stats))
  | Except.error e => SaveResult.loggedFailure ("[STATS] Failed to save: " ++ e)

/-! ## Stats: in-memory correction recording (`main`, stats-update block) -/

/-- The in-memory stats dict, restricted to its three known fields with
their intended types (the shape `main` manipulates). -/
structure CorrectionStats where
  start_time : String
  total_corrections : Nat
  misspellings : List (String × Nat)

/-- Lookup of a count with Python's `dict[k]`-after-`setdefault` reading:
absent key counts as 0. -/
def lookupCount : List (String × Nat) → String → Nat
  | [], _ => 0
  | (k, v) :: rest, key => if k = key then v else lookupCount rest key

/-- Optional lookup in the counts dict. -/
def countLookup : List (String × Nat) → String → Option Nat
  | [], _ => none
  | (k, v) :: rest, key => if k = key then some v else countLookup rest key

/-- Python `dict.setdefault(k, v)` on the counts dict. -/
def dictSetdefault (m : List (String × Nat)) (k : String) (v : Nat) :
    List (String × Nat) :=
  match countLookup m k with
  | some _ => m
  | none => m ++ [(k, v)]

/-- Python `dict[k] += 1` on the counts dict (the key is unique in a dict,
so incrementing the first binding is faithful). -/
def dictIncr : List (String × Nat) → String → List (String × Nat)
  | [], _ => []
  | (k, v) :: rest, key =>
      if k = key then (k, v + 1) :: rest else (k, v) :: dictIncr rest key

/-- Python `str.lower()` (ASCII): lowercase every character. -/
def lowerStr (s : String) : String := String.mk (s.data.map lc)

/-- The stats update performed by `main` on a correction:
`STATS["total_corrections"] += 1`;
`STATS["misspellings"].setdefault(misspelling.lower(), 0)`;
`STATS["misspellings"][misspelling.lower()] += 1`. -/
def record_correction (s : CorrectionStats) (miss : String) : CorrectionStats :=
  { s with
    total_corrections := s.total_corrections + 1
    misspellings :=
      dictIncr (dictSetdefault s.misspellings (lowerStr miss) 0) (lowerStr miss) }

/-- Sum of all per-misspelling counts, `sum(misspellings.values())`. -/
def sumCounts : List (String × Nat) → Nat
  | [] => 0
  | (_, v) :: rest => v + sumCounts rest

/-- The documented stats invariant:
`total_corrections == sum(misspellings.values())`. -/
def statsInv (s : CorrectionStats) : Prop :=
  s.total_corrections = sumCounts s.misspellings

/-! ## Poll interval (`main`, configuration block) -/

/-- The effective poll interval computed by `main`:
`int(os.getenv("POLL_INTERVAL_SECONDS", "60"))`, then raised to 10 when
below 10. `none` models an unset environment variable. -/
def effective_poll_interval (cfg : Option Int) : Int :=
  let p := cfg.getD 60
  if p < 10 then 10 else p

/-! ## Helper lemmas -/

lemma findSome?_eq_none_iff {α β : Type} (f : α → Option β) (l : List α) :
    l.findSome? f = none ↔ ∀ a ∈ l, f a = none := by
  induction l with
  | nil => simp
  | cons x xs ih =>
      rw [List.findSome?_cons]
      cases hx : f x with
      | some b => simp [hx]
      | none => simp [hx, ih]

lemma findSome?_eq_some_split {α β : Type} (f : α → Option β) (b : β) :
    ∀ l : List α, l.findSome? f = some b →
      ∃ pre a post, l = pre ++ a :: post ∧ f a = some b ∧ ∀ x ∈ pre, f x = none
  | [], h => by simp at h
  | x :: xs, h => by
      rw [List.findSome?_cons] at h
      cases hx : f x with
      | some c =>
          rw [hx] at h
          replace h : c = b := by simpa using h
          exact ⟨[], x, xs, rfl, by rw [hx, h], by simp⟩
      | none =>
          rw [hx] at h
          replace h : xs.findSome? f = some b := by simpa using h
          obtain ⟨pre, a, post, hsplit, ha, hpre⟩ := findSome?_eq_some_split f b xs h
          refine ⟨x :: pre, a, post, by rw [hsplit]; rfl, ha, ?_⟩
          intro y hy
          rcases List.mem_cons.mp hy with hyx | hyp
          · rw [hyx]; exact hx
          · exact hpre y hyp

lemma find_word_shape {w text s : List Char} (h : find_word w text = some s) :
    s.map lc = w.map lc ∧ ∃ p q, text = p ++ s ++ q := by
  unfold find_word at h
  cases hs : searchIdx w text with
  | none => rw [hs] at h; simp at h
  | some i =>
      rw [hs] at h
      simp only [Option.map_some', Option.some.injEq] at h
      subst h
      have hw : wholeWordAt w text i = true := by
        unfold searchIdx at hs
        exact List.find?_some hs
      unfold wholeWordAt at hw
      simp only [Bool.and_eq_true] at hw
      obtain ⟨⟨hmap, _⟩, _⟩ := hw
      constructor
      · exact eq_of_beq hmap
      · refine ⟨text.take i, text.drop (i + w.length), ?_⟩
        calc text = text.take i ++ text.drop i := (List.take_append_drop i text).symm
          _ = text.take i ++ ((text.drop i).take w.length ++ (text.drop i).drop w.length) := by
              congr 1
              exact (List.take_append_drop w.length (text.drop i)).symm
          _ = text.take i ++ (text.drop i).take w.length ++ text.drop (i + w.length) := by
              rw [List.drop_drop]
              exact (List.append_assoc _ _ _).symm

/-! ## Claims about the pattern matcher -/

/-- C1: if the canonical correct name "Mbeumo" occurs in the text as a
whole word, in any casing, then `find_misspelling` returns no match, even
when a misspelling substring is also present. -/
theorem find_misspelling_correct_name_suppresses (text : String)
    (h : containsWord CORRECT_NAME.data text.data = true) :
    find_misspelling text = none := by
  unfold find_misspelling findMisspellingL
  rw [h]
  rfl

/-- Witness for C1 on a text holding the correct name (odd casing) next to
a misspelling. -/
theorem find_misspelling_correct_name_suppresses_witness :
    find_misspelling "mBEUMO scored, not mbuemo" = none :=
  find_misspelling_correct_name_suppresses "mBEUMO scored, not mbuemo" (by decide)

/-- C2: on a text with no whole-word occurrence of the correct name,
`find_misspelling` returns exactly the result of scanning `MISSPELLINGS`
in order: no match iff no pattern matches, and a returned match is the
matched slice of the first pattern in list order whose search succeeds.
The three concrete scenarios from the spec are included. -/
theorem find_misspelling_first_pattern_order :
    (∀ text : List Char, containsWord CORRECT_NAME.data text = false →
      ((findMisspellingL text = none ↔ ∀ w ∈ MISSPELLINGS, find_word w text = none)
       ∧ ∀ s, findMisspellingL text = some s →
           ∃ pre w post, MISSPELLINGS = pre ++ w :: post
             ∧ find_word w text = some s
             ∧ ∀ w2 ∈ pre, find_word w2 text = none))
    ∧ find_misspelling "Great goal by Mbuemo!" = some "Mbuemo"
    ∧ find_misspelling "Great goal by Mbeumo!" = none
    ∧ find_misspelling "mbuemo and mboma both misspelled" = some "mbuemo" := by
  refine ⟨?_, by decide, by decide, by decide⟩
  intro text h
  unfold findMisspellingL
  rw [h]
  simp only [Bool.false_eq_true, if_false]
  constructor
  · exact findSome?_eq_none_iff _ MISSPELLINGS
  · intro s hs
    exact findSome?_eq_some_split _ s MISSPELLINGS hs

/-- Witness for C2 at a concrete text with no correct name and no
misspelling. -/
theorem find_misspelling_first_pattern_order_witness :
    findMisspellingL ("no names here".data) = none := by
  have h := find_misspelling_first_pattern_order.1 ("no names here".data) (by decide)
  exact h.1.mpr (by decide)

/-- C9: whenever `find_misspelling` returns a string, the text contains no
whole-word occurrence of the correct name, the string is a contiguous
substring of the input matched by one of the twelve patterns (whole-word,
case-insensitive), and in particular it is never the correct spelling
"Mbeumo" in any casing. -/
theorem find_misspelling_some_postcondition (text s : String)
    (h : find_misspelling text = some s) :
    containsWord CORRECT_NAME.data text.data = false
    ∧ (∃ w ∈ MISSPELLINGS, find_word w text.data = some s.data)
    ∧ (∃ p q, text.data = p ++ s.data ++ q)
    ∧ s.data.map lc ≠ CORRECT_NAME.data.map lc := by
  unfold find_misspelling at h
  cases hl : findMisspellingL text.data with
  | none => rw [hl] at h; simp at h
  | some l =>
      rw [hl] at h
      simp only [Option.map_some', Option.some.injEq] at h
      have hdata : s.data = l := by rw [← h]
      unfold findMisspellingL at hl
      cases hc : containsWord CORRECT_NAME.data text.data with
      | true => rw [hc] at hl; simp at hl
      | false =>
          rw [hc] at hl
          simp only [Bool.false_eq_true, if_false] at hl
          obtain ⟨pre, w, post, hsplit, hw, _⟩ := findSome?_eq_some_split _ l MISSPELLINGS hl
          have hmem : w ∈ MISSPELLINGS := by rw [hsplit]; simp
          obtain ⟨hmap, hsub⟩ := find_word_shape hw
          have hall : ∀ w2 ∈ MISSPELLINGS, w2.map lc ≠ CORRECT_NAME.data.map lc := by decide
          refine ⟨rfl, ⟨w, hmem, by rw [hdata]; exact hw⟩, by rw [hdata]; exact hsub, ?_⟩
          rw [hdata, hmap]
          exact hall w hmem

/-- Witness for C9 at the spec's concrete scenario. -/
theorem find_misspelling_some_postcondition_witness :
    containsWord CORRECT_NAME.data ("Great goal by Mbuemo!").data = false
    ∧ (∃ w ∈ MISSPELLINGS, find_word w ("Great goal by Mbuemo!").data = some ("Mbuemo").data)
    ∧ (∃ p q, ("Great goal by Mbuemo!").data = p ++ ("Mbuemo").data ++ q)
    ∧ ("Mbuemo").data.map lc ≠ CORRECT_NAME.data.map lc :=
  find_misspelling_some_postcondition "Great goal by Mbuemo!" "Mbuemo" (by decide)

/-! ## Claims about recording corrections -/

lemma countLookup_cons_ne (k' : String) (v : Nat) (rest : List (String × Nat))
    (k : String) (h : ¬ k' = k) :
    countLookup ((k', v) :: rest) k = countLookup rest k := by
  simp only [countLookup, if_neg h]

lemma dictSetdefault_cons_ne (k' : String) (v : Nat) (rest : List (String × Nat))
    (k : String) (h : ¬ k' = k) (d : Nat) :
    dictSetdefault ((k', v) :: rest) k d = (k', v) :: dictSetdefault rest k d := by
  unfold dictSetdefault
  rw [countLookup_cons_ne k' v rest k h]
  cases hc : countLookup rest k <;> simp

lemma dictSetdefault_cons_eq (k : String) (v : Nat) (rest : List (String × Nat))
    (d : Nat) : dictSetdefault ((k, v) :: rest) k d = (k, v) :: rest := by
  unfold dictSetdefault countLookup
  simp

lemma sumCounts_bump (k : String) :
    ∀ m : List (String × Nat),
      sumCounts (dictIncr (dictSetdefault m k 0) k) = sumCounts m + 1
  | [] => by simp [dictSetdefault, countLookup, dictIncr, sumCounts]
  | (k', v) :: rest => by
      by_cases hk : k' = k
      · subst hk
        rw [dictSetdefault_cons_eq k' v rest 0]
        unfold dictIncr
        rw [if_pos rfl]
        simp only [sumCounts]
        omega
      · rw [dictSetdefault_cons_ne k' v rest k hk 0]
        unfold dictIncr
        rw [if_neg hk]
        simp only [sumCounts]
        rw [sumCounts_bump k rest]
        omega

lemma lookupCount_bump (k : String) :
    ∀ m : List (String × Nat),
      lookupCount (dictIncr (dictSetdefault m k 0) k) k = lookupCount m k + 1
  | [] => by simp [dictSetdefault, countLookup, dictIncr, lookupCount]
  | (k', v) :: rest => by
      by_cases hk : k' = k
      · subst hk
        rw [dictSetdefault_cons_eq k' v rest 0]
        unfold dictIncr
        rw [if_pos rfl]
        simp [lookupCount]
      · rw [dictSetdefault_cons_ne k' v rest k hk 0]
        unfold dictIncr
        rw [if_neg hk]
        simp only [lookupCount, if_neg hk]
        exact lookupCount_bump k rest

lemma lookupCount_other (k k2 : String) (hne : ¬ k2 = k) :
    ∀ m : List (String × Nat),
      lookupCount (dictIncr (dictSetdefault m k 0) k) k2 = lookupCount m k2
  | [] => by
      have hne' : ¬ k = k2 := fun he => hne he.symm
      simp [dictSetdefault, countLookup, dictIncr, lookupCount, hne']
  | (k', v) :: rest => by
      by_cases hk : k' = k
      · subst hk
        have hne' : ¬ k' = k2 := fun he => hne he.symm
        rw [dictSetdefault_cons_eq k' v rest 0]
        unfold dictIncr
        rw [if_pos rfl]
        simp only [lookupCount, if_neg hne']
      · rw [dictSetdefault_cons_ne k' v rest k hk 0]
        unfold dictIncr
        rw [if_neg hk]
        by_cases hk2 : k' = k2
        · simp only [lookupCount, if_pos hk2]
        · simp only [lookupCount, if_neg hk2]
          exact lookupCount_other k k2 hne rest

lemma record_correction_keeps_inv (s : CorrectionStats) (miss : String)
    (h : statsInv s) : statsInv (record_correction s miss) := by
  unfold statsInv at h ⊢
  show s.total_corrections + 1
      = sumCounts (dictIncr (dictSetdefault s.misspellings (lowerStr miss) 0)
          (lowerStr miss))
  rw [sumCounts_bump, h]

/-- C3: the invariant `total_corrections == sum(misspellings.values())` is
preserved by any sequence of correction-recording updates. -/
theorem record_correction_preserves_total_inv (s : CorrectionStats)
    (h : statsInv s) (ms : List String) :
    statsInv (ms.foldl record_correction s) := by
  induction ms generalizing s with
  | nil => exact h
  | cons m rest ih => exact ih _ (record_correction_keeps_inv s m h)

/-- Witness for C3: a concrete state satisfying the invariant, updated by a
concrete sequence of misspellings. -/
theorem record_correction_preserves_total_inv_witness :
    statsInv (List.foldl record_correction ⟨"t", 3, [("mboma", 3)]⟩
      ["Mbuemo", "MBOMA", "mbuemo"]) :=
  record_correction_preserves_total_inv ⟨"t", 3, [("mboma", 3)]⟩
    (by unfold statsInv; decide) ["Mbuemo", "MBOMA", "mbuemo"]

/-- C8: recording a correction lowercases the misspelling to form the key,
increments that key's count by exactly 1 (an absent key is created at 0
first), increments the total by exactly 1, and leaves every other key's
count (and the start time) unchanged. -/
theorem record_correction_updates_counts (s : CorrectionStats) (miss : String) :
    (record_correction s miss).total_corrections = s.total_corrections + 1
    ∧ (record_correction s miss).start_time = s.start_time
    ∧ lookupCount (record_correction s miss).misspellings (lowerStr miss)
        = lookupCount s.misspellings (lowerStr miss) + 1
    ∧ ∀ k, ¬ k = lowerStr miss →
        lookupCount (record_correction s miss).misspellings k
          = lookupCount s.misspellings k := by
  refine ⟨rfl, rfl, ?_, ?_⟩
  · exact lookupCount_bump (lowerStr miss) s.misspellings
  · intro k hk
    exact lookupCount_other (lowerStr miss) k hk s.misspellings

/-- Witness for C8 at a concrete state and misspelling, including the
other-keys-unchanged part at the concrete key "mboma". -/
theorem record_correction_updates_counts_witness :
    (record_correction ⟨"t", 2, [("mboma", 2)]⟩ "MBUEMO").total_corrections
        = 2 + 1
    ∧ lookupCount (record_correction ⟨"t", 2, [("mboma", 2)]⟩ "MBUEMO").misspellings
        (lowerStr "MBUEMO") = lookupCount [("mboma", 2)] (lowerStr "MBUEMO") + 1
    ∧ lookupCount (record_correction ⟨"t", 2, [("mboma", 2)]⟩ "MBUEMO").misspellings
        "mboma" = lookupCount [("mboma", 2)] "mboma" := by
  have h := record_correction_updates_counts ⟨"t", 2, [("mboma", 2)]⟩ "MBUEMO"
  exact ⟨h.1, h.2.2.1, h.2.2.2 "mboma" (by decide)⟩

/-! ## Claims about persistence -/

lemma jLookup_append_some {l : List (String × JVal)} {k : String} {v : JVal}
    (h : jLookup l k = some v) (l2 : List (String × JVal)) :
    jLookup (l ++ l2) k = some v := by
  induction l with
  | nil => simp [jLookup] at h
  | cons p rest ih =>
      obtain ⟨k', v'⟩ := p
      by_cases hk : k' = k
      · simp only [jLookup, if_pos hk] at h
        simp only [List.cons_append, jLookup, if_pos hk]
        exact h
      · simp only [jLookup, if_neg hk] at h
        simp only [List.cons_append, jLookup, if_neg hk]
        exact ih h

lemma jLookup_append_none {l : List (String × JVal)} {k : String}
    (h : jLookup l k = none) (l2 : List (String × JVal)) :
    jLookup (l ++ l2) k = jLookup l2 k := by
  induction l with
  | nil => simp
  | cons p rest ih =>
      obtain ⟨k', v'⟩ := p
      by_cases hk : k' = k
      · simp only [jLookup, if_pos hk] at h
        exact absurd h (by simp)
      · simp only [jLookup, if_neg hk] at h
        simp only [List.cons_append, jLookup, if_neg hk]
        exact ih h

lemma jSetdefault_present {l : List (String × JVal)} {k : String} {v : JVal}
    (h : jLookup l k = some v) (d : JVal) : jSetdefault l k d = l := by
  unfold jSetdefault
  rw [h]

lemma jLookup_setdefault_some {l : List (String × JVal)} {k : String} {v : JVal}
    (h : jLookup l k = some v) (k2 : String) (d : JVal) :
    jLookup (jSetdefault l k2 d) k = some v := by
  unfold jSetdefault
  cases hc : jLookup l k2 with
  | some w => exact h
  | none => exact jLookup_append_some h [(k2, d)]

lemma jLookup_setdefault_self_none {l : List (String × JVal)} {k : String}
    (h : jLookup l k = none) (d : JVal) :
    jLookup (jSetdefault l k d) k = some d := by
  unfold jSetdefault
  rw [h]
  rw [jLookup_append_none h [(k, d)]]
  simp [jLookup]

lemma jLookup_setdefault_none {l : List (String × JVal)} {k k2 : String}
    (h : jLookup l k = none) (hne : ¬ k2 = k) (d : JVal) :
    jLookup (jSetdefault l k2 d) k = none := by
  unfold jSetdefault
  cases hc : jLookup l k2 with
  | some w => exact h
  | none =>
      rw [jLookup_append_none h [(k2, d)]]
      simp [jLookup, hne]

/-- C4: `load_stats` never raises (it is a total function over every
backing-file condition), and on an absent, unreadable, or unparseable file
it returns the fresh default state: start time set to the current time,
zero total corrections, empty misspellings mapping. -/
theorem load_stats_fail_open_defaults (now : String) :
    load_stats now FileCond.absent = freshStats now
    ∧ load_stats now FileCond.readError = freshStats now
    ∧ load_stats now FileCond.parseError = freshStats now
    ∧ jLookup (freshStats now) "start_time" = some (JVal.jstr now)
    ∧ jLookup (freshStats now) "total_corrections" = some (JVal.jnum 0)
    ∧ jLookup (freshStats now) "misspellings" = some (JVal.jobj []) := by
  refine ⟨rfl, rfl, rfl, ?_, ?_, ?_⟩ <;> simp [freshStats, jLookup]

/-- C5: if `save_stats` succeeds in writing a stats dict holding the three
expected keys, a subsequent `load_stats` of the written file returns a
state with the same `total_corrections` and the same `misspellings`
mapping. -/
theorem save_load_round_trip (now : String) (fields : List (String × JVal))
    (f : FileCond) (w : Except String Unit)
    (hst : ∃ v : String, jLookup fields "start_time" = some (JVal.jstr v))
    (ht : ∃ n : Int, jLookup fields "total_corrections" = some (JVal.jnum n))
    (hm : ∃ m, jLookup fields "misspellings" = some (JVal.jobj m))
    (hsave : save_stats fields w = SaveResult.saved f) :
    jLookup (load_stats now f) "total_corrections"
        = jLookup fields "total_corrections"
    ∧ jLookup (load_stats now f) "misspellings"
        = jLookup fields "misspellings" := by
  obtain ⟨v, hst⟩ := hst
  obtain ⟨n, ht⟩ := ht
  obtain ⟨m, hm⟩ := hm
  cases w with
  | error e => simp [save_stats] at hsave
  | ok u =>
      simp only [save_stats, SaveResult.saved.injEq] at hsave
      subst hsave
      have e1 : jSetdefault fields "start_time" (JVal.jstr now) = fields :=
        jSetdefault_present hst _
      have e2 : jSetdefault fields "total_corrections" (JVal.jnum 0) = fields :=
        jSetdefault_present ht _
      have e3 : jSetdefault fields "misspellings" (JVal.jobj []) = fields :=
        jSetdefault_present hm _
      have hload : load_stats now (FileCond.parsed (JVal.jobj fields)) = fields := by
        show jSetdefault
            (jSetdefault
              (jSetdefault fields "start_time" (JVal.jstr now))
              "total_corrections" (JVal.jnum 0))
            "misspellings" (JVal.jobj []) = fields
        rw [e1, e2, e3]
      rw [hload]
      exact ⟨rfl, rfl⟩

/-- Witness for C5 at a concrete well-formed stats dict. -/
theorem save_load_round_trip_witness :
    jLookup
        (load_stats "N"
          (FileCond.parsed (JVal.jobj
            [("start_time", JVal.jstr "T"), ("total_corrections", JVal.jnum 3),
             ("misspellings", JVal.jobj [("mboma", JVal.jnum 3)])])))
        "total_corrections"
      = jLookup
          [("start_time", JVal.jstr "T"), ("total_corrections", JVal.jnum 3),
           ("misspellings", JVal.jobj [("mboma", JVal.jnum 3)])]
          "total_corrections"
    ∧ jLookup
        (load_stats "N"
          (FileCond.parsed (JVal.jobj
            [("start_time", JVal.jstr "T"), ("total_corrections", JVal.jnum 3),
             ("misspellings", JVal.jobj [("mboma", JVal.jnum 3)])])))
        "misspellings"
      = jLookup
          [("start_time", JVal.jstr "T"), ("total_corrections", JVal.jnum 3),
           ("misspellings", JVal.jobj [("mboma", JVal.jnum 3)])]
          "misspellings" :=
  save_load_round_trip "N"
    [("start_time", JVal.jstr "T"), ("total_corrections", JVal.jnum 3),
     ("misspellings", JVal.jobj [("mboma", JVal.jnum 3)])]
    (FileCond.parsed (JVal.jobj
      [("start_time", JVal.jstr "T"), ("total_corrections", JVal.jnum 3),
       ("misspellings", JVal.jobj [("mboma", JVal.jnum 3)])]))
    (Except.ok ()) ⟨"T", rfl⟩ ⟨3, rfl⟩ ⟨[("mboma", JVal.jnum 3)], rfl⟩ rfl

/-- C7: `save_stats` never propagates an error. It is a total function
over every write outcome: a successful write yields the saved file, and
any failure yields the logged-failure result (the printed message), never
a re-raised exception. -/
theorem save_stats_error_logged (stats : List (String × JVal))
    (w : Except String Unit) :
    save_stats stats w = SaveResult.saved (FileCond.parsed (JVal.jobj stats))
    ∨ ∃ e, w = Except.error e
        ∧ save_stats stats w
            = SaveResult.loggedFailure ("[STATS] Failed to save: " ++ e) := by
  cases w with
  | ok u => exact Or.inl rfl
  | error e => exact Or.inr ⟨e, rfl, rfl⟩

/-- C10: when the backing file exists and parses as a JSON object,
`load_stats` keeps every present key-value pair unchanged and fills in
defaults only for whichever of the three expected keys are absent; it does
not reset a partially populated file. -/
theorem load_stats_partial_merge (now : String) (fields : List (String × JVal)) :
    (∀ k v, jLookup fields k = some v →
      jLookup (load_stats now (FileCond.parsed (JVal.jobj fields))) k = some v)
    ∧ (jLookup fields "start_time" = none →
        jLookup (load_stats now (FileCond.parsed (JVal.jobj fields))) "start_time"
          = some (JVal.jstr now))
    ∧ (jLookup fields "total_corrections" = none →
        jLookup (load_stats now (FileCond.parsed (JVal.jobj fields)))
            "total_corrections"
          = some (JVal.jnum 0))
    ∧ (jLookup fields "misspellings" = none →
        jLookup (load_stats now (FileCond.parsed (JVal.jobj fields)))
            "misspellings"
          = some (JVal.jobj [])) := by
  have hload : load_stats now (FileCond.parsed (JVal.jobj fields))
      = jSetdefault
          (jSetdefault
            (jSetdefault fields "start_time" (JVal.jstr now))
            "total_corrections" (JVal.jnum 0))
          "misspellings" (JVal.jobj []) := rfl
  rw [hload]
  refine ⟨?_, ?_, ?_, ?_⟩
  · intro k v hv
    exact jLookup_setdefault_some
      (jLookup_setdefault_some (jLookup_setdefault_some hv _ _) _ _) _ _
  · intro h
    exact jLookup_setdefault_some
      (jLookup_setdefault_some (jLookup_setdefault_self_none h _) _ _) _ _
  · intro h
    have h1 : jLookup (jSetdefault fields "start_time" (JVal.jstr now))
        "total_corrections" = none :=
      jLookup_setdefault_none h (by decide) _
    exact jLookup_setdefault_some (jLookup_setdefault_self_none h1 _) _ _
  · intro h
    have h1 : jLookup (jSetdefault fields "start_time" (JVal.jstr now))
        "misspellings" = none :=
      jLookup_setdefault_none h (by decide) _
    have h2 : jLookup
        (jSetdefault (jSetdefault fields "start_time" (JVal.jstr now))
          "total_corrections" (JVal.jnum 0))
        "misspellings" = none :=
      jLookup_setdefault_none h1 (by decide) _
    exact jLookup_setdefault_self_none h2 _

/-- Witness for C10 at a partially populated file holding only an
unrelated key: the pair survives and the three defaults appear. -/
theorem load_stats_partial_merge_witness :
    jLookup (load_stats "N" (FileCond.parsed (JVal.jobj [("extra", JVal.jnum 7)])))
        "extra" = some (JVal.jnum 7)
    ∧ jLookup (load_stats "N" (FileCond.parsed (JVal.jobj [("extra", JVal.jnum 7)])))
        "start_time" = some (JVal.jstr "N")
    ∧ jLookup (load_stats "N" (FileCond.parsed (JVal.jobj [("extra", JVal.jnum 7)])))
        "total_corrections" = some (JVal.jnum 0)
    ∧ jLookup (load_stats "N" (FileCond.parsed (JVal.jobj [("extra", JVal.jnum 7)])))
        "misspellings" = some (JVal.jobj []) := by
  have h := load_stats_partial_merge "N" [("extra", JVal.jnum 7)]
  exact ⟨h.1 "extra" (JVal.jnum 7) rfl, h.2.1 rfl, h.2.2.1 rfl, h.2.2.2 rfl⟩

/-! ## Claim about the poll interval -/

/-- C6: the effective poll interval is the configured value when it is at
least 10 seconds, is raised to the floor of 10 when below it, and defaults
to 60 when unconfigured; in particular configuring 5 yields 10. -/
theorem poll_interval_floor :
    (∀ p : Int, 10 ≤ p → effective_poll_interval (some p) = p)
    ∧ (∀ p : Int, p < 10 → effective_poll_interval (some p) = 10)
    ∧ effective_poll_interval none = 60
    ∧ effective_poll_interval (some 5) = 10 := by
  refine ⟨?_, ?_, rfl, rfl⟩
  · intro p h
    unfold effective_poll_interval
    simp only [Option.getD_some]
    rw [if_neg (by omega)]
  · intro p h
    unfold effective_poll_interval
    simp only [Option.getD_some]
    rw [if_pos h]

/-- Witness for C6 at a configured value above the floor. -/
theorem poll_interval_floor_witness : effective_poll_interval (some 60) = 60 :=
  poll_interval_floor.1 60 (by decide)

end MbeumoBot
